import Mathlib

/-!
Shallow embedding of `makecbz` (src/main.rs): a tool that packages a
directory of images into a stored (uncompressed) cbz archive.

The filesystem is modelled abstractly: an `FsEntry` records, for one
directory entry, everything the program can observe about it (path string,
whether it is a regular file, its UTF-8 file name if any, whether it can be
opened and its format guessed, the guessed format, whether a full decode
succeeds, its byte content, and fault-injection flags for the reads and
writes performed while archiving).
-/

deriving instance DecidableEq for Except

namespace Makecbz

/-- Supported image formats (`image::ImageFormat` restricted to the ones the
program can meet), plus `other` for any detected format outside `FORMATS`. -/
inductive ImgFormat
  | jpeg
  | png
  | gif
  | webp
  | other
deriving DecidableEq

/-- Mirrors the constant `FORMATS` in main.rs. -/
def FORMATS : List ImgFormat := [.jpeg, .png, .gif, .webp]

/-- Mirrors the constant `EXCLUDED_FILES` in main.rs. -/
def EXCLUDED_FILES : List String := ["ComicInfo.xml"]

/-- First entry of `ImageFormat::extensions_str()` from the `image` crate for
each supported format (the canonical extension). `other` never reaches the
renaming code because `check_file` filters on `FORMATS`. -/
def extFirst : ImgFormat → String
  | .jpeg => "jpg"
  | .png => "png"
  | .gif => "gif"
  | .webp => "webp"
  | .other => ""

/-- Model of one directory entry and of every observation the program can
make about the file behind it. `fileName` is `some s` when
`path.file_name().and_then(to_str)` yields a UTF-8 name `s`, and `none` when
the file name is absent or not valid UTF-8 (both collapse to `""` after the
`unwrap_or_default` chain in main.rs). `readable` models
`ImageReader::open` + `with_guessed_format` succeeding; `fsReadOk` models
`fs::read` succeeding during archiving; `writeOk` models
`zip.start_file` + `zip.write_all` succeeding for this entry. -/
structure FsEntry where
  path : String
  isFile : Bool
  fileName : Option String
  readable : Bool
  format : Option ImgFormat
  decodes : Bool
  content : List Nat
  fsReadOk : Bool
  writeOk : Bool
deriving DecidableEq

/-- The value of `path.file_name().unwrap_or_default().to_str().unwrap_or_default()`. -/
def effName (e : FsEntry) : String := e.fileName.getD ""

/-- Mirrors `struct ImageInfo` in main.rs; the Rust struct stores the path,
here the whole modelled entry is carried so that the later `fs::read` of the
same path is the entry's content. -/
structure ImageInfo where
  entry : FsEntry
  format : ImgFormat
deriving DecidableEq

/-- Embedding of `check_file`: errors iff the file cannot be opened/read;
a file with an undetected or unsupported format, or one failing decode when
`verify` is set, classifies as `none` (not an image). -/
def check_file (e : FsEntry) (verify : Bool) : Except String (Option ImageInfo) :=
  if !e.readable then
    .error ("Failed to open " ++ e.path ++ " for reading")
  else
    match e.format with
    | some fmt =>
      if FORMATS.contains fmt then
        if verify && !e.decodes then
          .ok none
        else
          .ok (some ⟨e, fmt⟩)
      else
        .ok none
    | none => .ok none

/-- Model of one input directory: the raw entries (unsorted, as yielded by
`fs::read_dir`) and whether listing succeeds. -/
structure DirModel where
  path : String
  entries : List FsEntry
  readDirOk : Bool
deriving DecidableEq

/-- Lexicographic byte-wise comparison, modelling the `Ord` instance of
`PathBuf` (which compares the underlying byte sequences). -/
def bytesLe : List Nat → List Nat → Bool
  | [], _ => true
  | _ :: _, [] => false
  | a :: as, b :: bs =>
    if a < b then true
    else if b < a then false
    else bytesLe as bs

/-- Path comparison used by `paths.sort()`. -/
def pathLe (a b : FsEntry) : Bool :=
  bytesLe (a.path.data.map Char.toNat) (b.path.data.map Char.toNat)

/-- The sorted listing (`paths.sort()` in `get_paths`): a stable sort of the
raw entries by path, modelled with insertion sort (Rust's slice sort is also
stable). -/
def sorted_paths (d : DirModel) : List FsEntry :=
  d.entries.insertionSort (fun a b => pathLe a b = true)

/-- Embedding of `get_paths`: the sorted listing, or an error when the
directory cannot be read. -/
def get_paths (d : DirModel) : Except String (List FsEntry) :=
  if !d.readDirOk then
    .error ("Failed to read directory " ++ d.path)
  else
    .ok (sorted_paths d)

/-- The loop body of `check_dir` over the sorted path list: partitions into
(images, non-images, excluded), aborting on the first `check_file` error. -/
def check_dir_loop (verify : Bool) :
    List FsEntry → Except String (List ImageInfo × List FsEntry × List FsEntry)
  | [] => .ok ([], [], [])
  | e :: rest =>
    if !e.isFile then
      match check_dir_loop verify rest with
      | .error msg => .error msg
      | .ok (i, n, x) => .ok (i, e :: n, x)
    else if EXCLUDED_FILES.contains (effName e) then
      match check_dir_loop verify rest with
      | .error msg => .error msg
      | .ok (i, n, x) => .ok (i, n, e :: x)
    else
      match check_file e verify with
      | .error msg => .error msg
      | .ok (some info) =>
        match check_dir_loop verify rest with
        | .error msg => .error msg
        | .ok (i, n, x) => .ok (info :: i, n, x)
      | .ok none =>
        match check_dir_loop verify rest with
        | .error msg => .error msg
        | .ok (i, n, x) => .ok (i, e :: n, x)

/-- Embedding of `check_dir`: list the directory, then classify each entry. -/
def check_dir (d : DirModel) (verify : Bool) :
    Except String (List ImageInfo × List FsEntry × List FsEntry) :=
  match get_paths d with
  | .error msg => .error msg
  | .ok paths => check_dir_loop verify paths

/-- The three classification outcomes of the `check_dir` loop. -/
inductive EntryClass
  | img
  | nonImg
  | excl
deriving DecidableEq

/-- Classification of a single entry by the `check_dir` loop; `none` when
`check_file` errors. -/
def entryClass (verify : Bool) (e : FsEntry) : Option EntryClass :=
  if !e.isFile then some .nonImg
  else if EXCLUDED_FILES.contains (effName e) then some .excl
  else
    match check_file e verify with
    | .error _ => none
    | .ok (some _) => some .img
    | .ok none => some .nonImg

/-- Boolean test for membership in one classification bucket. -/
def isClass (verify : Bool) (c : EntryClass) (e : FsEntry) : Bool :=
  entryClass verify e == some c

/-- Archive entry compression methods; `create_cbz` always picks `stored`
(`SimpleFileOptions::default().compression_method(CompressionMethod::Stored)`). -/
inductive Method
  | stored
  | deflated
deriving DecidableEq

/-- One entry written to the zip archive: its name, raw byte content, and
compression method. -/
structure ZipEntry where
  name : String
  data : List Nat
  method : Method
deriving DecidableEq

/-- The value of Rust's `format!("{:0width$}", n)`: `n` in decimal, left
padded with zeros to at least `width` characters. -/
def zeroPad (n : Nat) (width : Nat) : String :=
  let s := toString n
  String.mk (List.replicate (width - s.length) '0' ++ s.data)

/-- The archive entry name chosen for the image at 0-based index `idx` of a
list of `total` images: the original file name under `no_rename`, otherwise
`format!("{:0pad$}.{}", idx + 1, extensions_str()[0])` with
`pad = max(total.to_string().len(), 2)`. -/
def imgEntryName (no_rename : Bool) (total : Nat) (idx : Nat) (img : ImageInfo) : String :=
  if no_rename then effName img.entry
  else zeroPad (idx + 1) (max (toString total).length 2) ++ "." ++ extFirst img.format

/-- The image-writing loop of `create_cbz`: reads each image and writes it as
a stored entry, stopping with an error message at the first failed read or
write. Returns the entries written so far and the error, if any. -/
def writeImgs (no_rename : Bool) (total : Nat) :
    Nat → List ImageInfo → List ZipEntry × Option String
  | _, [] => ([], none)
  | idx, img :: rest =>
    if !img.entry.fsReadOk then
      ([], some ("Failed to read file " ++ img.entry.path))
    else if !img.entry.writeOk then
      ([], some ("Failed to write " ++ imgEntryName no_rename total idx img))
    else
      let r := writeImgs no_rename total (idx + 1) rest
      (⟨imgEntryName no_rename total idx img, img.entry.content, .stored⟩ :: r.1, r.2)

/-- The excluded-file loop of `create_cbz`: appends each excluded file under
its original (effective) name as a stored entry. -/
def writeExcluded : List FsEntry → List ZipEntry × Option String
  | [] => ([], none)
  | e :: rest =>
    if !e.fsReadOk then
      ([], some ("Failed to read file " ++ e.path))
    else if !e.writeOk then
      ([], some ("Failed to write " ++ effName e))
    else
      let r := writeExcluded rest
      (⟨effName e, e.content, .stored⟩ :: r.1, r.2)

/-- Per-directory configuration, mirroring the command-line flags. -/
structure Config where
  no_rename : Bool
  delete : Bool
  verify : Bool
  overwrite : Bool
deriving DecidableEq

/-- External facts about one `create_cbz` run: whether the output path
already exists, the operator's answer line at the overwrite prompt, and
success of `fs::File::create`, `zip.finish` and `fs::remove_dir_all`. -/
structure Env where
  zipExists : Bool
  answer : String
  createOk : Bool
  finishOk : Bool
  removeOk : Bool
deriving DecidableEq

/-- Observable outcome state of one `create_cbz` run. `archiveCreated` is
whether `fs::File::create` ran (the output file now exists on disk);
`entries` are the archive entries written; `finished` is whether
`zip.finish` succeeded; `deleted` is whether the source directory was
removed; `printed` are the non-image paths listed to the operator;
`prompted` is whether the overwrite prompt was shown. -/
structure CbzState where
  prompted : Bool := false
  archiveCreated : Bool := false
  entries : List ZipEntry := []
  finished : Bool := false
  deleted : Bool := false
  printed : List String := []
deriving DecidableEq

/-- Model of `str::to_lowercase` on one character (ASCII range; no
non-ASCII character lowercases to a character of `"y"`/`"yes"`, so the
comparisons below are unaffected by the restriction). -/
def lowerChar (c : Char) : Char :=
  if 65 ≤ c.toNat ∧ c.toNat ≤ 90 then Char.ofNat (c.toNat + 32) else c

/-- Whitespace test for `str::trim`: the Unicode White_Space set used by
`char::is_whitespace` (U+0009..U+000D, U+0020, U+0085, U+00A0, U+1680,
U+2000..U+200A, U+2028, U+2029, U+202F, U+205F, U+3000). -/
def isWhite (c : Char) : Bool :=
  let n := c.toNat
  (decide (9 ≤ n) && decide (n ≤ 13)) || n == 32 || n == 0x85 || n == 0xA0 ||
    n == 0x1680 || (decide (0x2000 ≤ n) && decide (n ≤ 0x200A)) || n == 0x2028 ||
    n == 0x2029 || n == 0x202F || n == 0x205F || n == 0x3000

/-- Model of `str::trim`: strip leading and trailing whitespace. -/
def trimChars (l : List Char) : List Char :=
  ((l.dropWhile isWhite).reverse.dropWhile isWhite).reverse

/-- The operator's answer line after `to_lowercase()` and `trim()`. -/
def lowerTrim (s : String) : String :=
  String.mk (trimChars (s.data.map lowerChar))

/-- Whether the operator's answer, lowercased then trimmed as in main.rs, is
affirmative (the negation of `choice != "y" && choice != "yes"`). -/
def promptYes (answer : String) : Bool :=
  let choice := lowerTrim answer
  choice == "y" || choice == "yes"

/-- The part of `create_cbz` after the overwrite prompt: scan the directory,
abort (successfully) printing the non-image list if it is non-empty,
otherwise create the archive, write all images then all excluded files,
finalize, and delete the source directory if `delete` is set. -/
def scan_and_build (d : DirModel) (cfg : Config) (env : Env) :
    CbzState × Except String Unit :=
  match check_dir d cfg.verify with
  | .error msg => ({}, .error msg)
  | .ok (imgs, non_imgs, excluded) =>
    if !non_imgs.isEmpty then
      ({ printed := non_imgs.map (·.path) }, .ok ())
    else if !env.createOk then
      ({}, .error ("Failed to create file " ++ d.path ++ ".cbz"))
    else
      let r1 := writeImgs cfg.no_rename imgs.length 0 imgs
      match r1.2 with
      | some msg => ({ archiveCreated := true, entries := r1.1 }, .error msg)
      | none =>
        let r2 := writeExcluded excluded
        match r2.2 with
        | some msg =>
          ({ archiveCreated := true, entries := r1.1 ++ r2.1 }, .error msg)
        | none =>
          if !env.finishOk then
            ({ archiveCreated := true, entries := r1.1 ++ r2.1 },
              .error ("Failed to finalize " ++ d.path ++ ".cbz"))
          else if cfg.delete then
            if !env.removeOk then
              ({ archiveCreated := true, entries := r1.1 ++ r2.1, finished := true },
                .error ("Failed to remove directory " ++ d.path))
            else
              ({ archiveCreated := true, entries := r1.1 ++ r2.1, finished := true,
                  deleted := true }, .ok ())
          else
            ({ archiveCreated := true, entries := r1.1 ++ r2.1, finished := true }, .ok ())

/-- Embedding of `create_cbz`: when the output exists and `overwrite` is not
set, prompt; a non-affirmative answer skips the directory with success,
otherwise (and when no prompt is needed) proceed to scan and build. -/
def create_cbz (d : DirModel) (cfg : Config) (env : Env) :
    CbzState × Except String Unit :=
  if !cfg.overwrite && env.zipExists then
    if !promptYes env.answer then
      ({ prompted := true }, .ok ())
    else
      let r := scan_and_build d cfg env
      ({ r.1 with prompted := true }, r.2)
  else
    scan_and_build d cfg env

/-- Embedding of the loop in `main`: process every directory in order; a
per-directory error is recorded on the diagnostic stream (second component)
and processing continues with the remaining directories. -/
def process_dirs (cfg : Config) :
    List (DirModel × Env) → List (CbzState × Except String Unit) × List String
  | [] => ([], [])
  | j :: rest =>
    let r := create_cbz j.1 cfg j.2
    let tl := process_dirs cfg rest
    match r.2 with
    | .error msg => (r :: tl.1, msg :: tl.2)
    | .ok _ => (r :: tl.1, tl.2)

/-! ## Helper lemmas -/

theorem writeImgs_getElem (nr : Bool) (total : Nat) (imgs : List ImageInfo)
    (hflags : ∀ img ∈ imgs, img.entry.fsReadOk = true ∧ img.entry.writeOk = true) :
    ∀ idx k, (writeImgs nr total idx imgs).1[k]? =
      imgs[k]?.map (fun img =>
        ZipEntry.mk (imgEntryName nr total (idx + k) img) img.entry.content .stored) := by
  induction imgs with
  | nil => intro idx k; simp [writeImgs]
  | cons img rest ih =>
    intro idx k
    obtain ⟨hr, hw⟩ := hflags img (List.mem_cons_self _ _)
    have ihr := ih (fun i hi => hflags i (List.mem_cons_of_mem _ hi))
    cases k with
    | zero => simp [writeImgs, hr, hw]
    | succ k =>
      simp only [writeImgs, hr, hw, Bool.not_true, Bool.false_eq_true, if_false,
        List.getElem?_cons_succ]
      rw [ihr (idx + 1) k, show idx + (k + 1) = idx + 1 + k by omega]

theorem writeImgs_err_none (nr : Bool) (total : Nat) (imgs : List ImageInfo)
    (hflags : ∀ img ∈ imgs, img.entry.fsReadOk = true ∧ img.entry.writeOk = true) :
    ∀ idx, (writeImgs nr total idx imgs).2 = none := by
  induction imgs with
  | nil => intro idx; simp [writeImgs]
  | cons img rest ih =>
    intro idx
    obtain ⟨hr, hw⟩ := hflags img (List.mem_cons_self _ _)
    simp only [writeImgs, hr, hw, Bool.not_true, Bool.false_eq_true, if_false]
    exact ih (fun i hi => hflags i (List.mem_cons_of_mem _ hi)) (idx + 1)

theorem writeImgs_length (nr : Bool) (total : Nat) (imgs : List ImageInfo)
    (hflags : ∀ img ∈ imgs, img.entry.fsReadOk = true ∧ img.entry.writeOk = true) :
    ∀ idx, (writeImgs nr total idx imgs).1.length = imgs.length := by
  induction imgs with
  | nil => intro idx; simp [writeImgs]
  | cons img rest ih =>
    intro idx
    obtain ⟨hr, hw⟩ := hflags img (List.mem_cons_self _ _)
    simp only [writeImgs, hr, hw, Bool.not_true, Bool.false_eq_true, if_false,
      List.length_cons]
    rw [ih (fun i hi => hflags i (List.mem_cons_of_mem _ hi)) (idx + 1)]

theorem writeExcluded_eq (xs : List FsEntry)
    (hflags : ∀ e ∈ xs, e.fsReadOk = true ∧ e.writeOk = true) :
    writeExcluded xs = (xs.map (fun e => ZipEntry.mk (effName e) e.content .stored), none) := by
  induction xs with
  | nil => simp [writeExcluded]
  | cons e rest ih =>
    obtain ⟨hr, hw⟩ := hflags e (List.mem_cons_self _ _)
    simp only [writeExcluded, hr, hw, Bool.not_true, Bool.false_eq_true, if_false,
      List.map_cons]
    rw [ih (fun i hi => hflags i (List.mem_cons_of_mem _ hi))]

theorem mem_writeImgs (nr : Bool) (total : Nat) (imgs : List ImageInfo) :
    ∀ idx z, z ∈ (writeImgs nr total idx imgs).1 →
      z.method = .stored ∧ ∃ img ∈ imgs, z.data = img.entry.content := by
  induction imgs with
  | nil => intro idx z hz; simp [writeImgs] at hz
  | cons img rest ih =>
    intro idx z hz
    by_cases hr : img.entry.fsReadOk
    · by_cases hw : img.entry.writeOk
      · simp only [writeImgs, hr, hw, Bool.not_true, Bool.false_eq_true, if_false,
          List.mem_cons] at hz
        rcases hz with hz | hz
        · subst hz
          exact ⟨rfl, img, List.mem_cons_self _ _, rfl⟩
        · obtain ⟨hm, i, hi, hd⟩ := ih (idx + 1) z hz
          exact ⟨hm, i, List.mem_cons_of_mem _ hi, hd⟩
      · simp only [writeImgs, hr, hw] at hz
        simp at hz
    · simp only [writeImgs, hr] at hz
      simp at hz

theorem mem_writeExcluded (xs : List FsEntry) :
    ∀ z ∈ (writeExcluded xs).1,
      z.method = .stored ∧ ∃ e ∈ xs, z.data = e.content := by
  induction xs with
  | nil => intro z hz; simp [writeExcluded] at hz
  | cons e rest ih =>
    intro z hz
    by_cases hr : e.fsReadOk
    · by_cases hw : e.writeOk
      · simp only [writeExcluded, hr, hw, Bool.not_true, Bool.false_eq_true, if_false,
          List.mem_cons] at hz
        rcases hz with hz | hz
        · subst hz
          exact ⟨rfl, e, List.mem_cons_self _ _, rfl⟩
        · obtain ⟨hm, i, hi, hd⟩ := ih z hz
          exact ⟨hm, i, List.mem_cons_of_mem _ hi, hd⟩
      · simp only [writeExcluded, hr, hw] at hz
        simp at hz
    · simp only [writeExcluded, hr] at hz
      simp at hz

theorem writeImgs_prefix (nr : Bool) (total : Nat) :
    ∀ (imgs : List ImageInfo) (idx k : Nat) (z : ZipEntry),
      (writeImgs nr total idx imgs).1[k]? = some z →
      ∃ img, imgs[k]? = some img ∧
        z = ZipEntry.mk (imgEntryName nr total (idx + k) img) img.entry.content .stored := by
  intro imgs
  induction imgs with
  | nil => intro idx k z hz; simp [writeImgs] at hz
  | cons img rest ih =>
    intro idx k z hz
    by_cases hr : img.entry.fsReadOk
    · by_cases hw : img.entry.writeOk
      · simp only [writeImgs, hr, hw, Bool.not_true, Bool.false_eq_true, if_false] at hz
        cases k with
        | zero =>
          simp only [List.getElem?_cons_zero, Option.some.injEq] at hz
          subst hz
          exact ⟨img, by simp, by simp⟩
        | succ k =>
          simp only [List.getElem?_cons_succ] at hz
          obtain ⟨i2, hi2, hz2⟩ := ih (idx + 1) k z hz
          refine ⟨i2, by simpa using hi2, ?_⟩
          rw [hz2, show idx + 1 + k = idx + (k + 1) by omega]
      · simp only [writeImgs, hr, hw] at hz
        simp at hz
    · simp only [writeImgs, hr] at hz
      simp at hz

theorem writeImgs_none_length (nr : Bool) (total : Nat) :
    ∀ (imgs : List ImageInfo) (idx : Nat),
      (writeImgs nr total idx imgs).2 = none →
      (writeImgs nr total idx imgs).1.length = imgs.length := by
  intro imgs
  induction imgs with
  | nil => intro idx h; simp [writeImgs]
  | cons img rest ih =>
    intro idx h
    by_cases hr : img.entry.fsReadOk
    · by_cases hw : img.entry.writeOk
      · simp only [writeImgs, hr, hw, Bool.not_true, Bool.false_eq_true, if_false] at h ⊢
        simp only [List.length_cons]
        rw [ih (idx + 1) h]
      · simp only [writeImgs, hr, hw] at h
        simp at h
    · simp only [writeImgs, hr] at h
      simp at h

theorem writeExcluded_prefix :
    ∀ (xs : List FsEntry) (k : Nat) (z : ZipEntry),
      (writeExcluded xs).1[k]? = some z →
      ∃ e, xs[k]? = some e ∧ z = ZipEntry.mk (effName e) e.content .stored := by
  intro xs
  induction xs with
  | nil => intro k z hz; simp [writeExcluded] at hz
  | cons e rest ih =>
    intro k z hz
    by_cases hr : e.fsReadOk
    · by_cases hw : e.writeOk
      · simp only [writeExcluded, hr, hw, Bool.not_true, Bool.false_eq_true, if_false] at hz
        cases k with
        | zero =>
          simp only [List.getElem?_cons_zero, Option.some.injEq] at hz
          subst hz
          exact ⟨e, by simp, rfl⟩
        | succ k =>
          simp only [List.getElem?_cons_succ] at hz
          obtain ⟨e2, he2, hz2⟩ := ih k z hz
          exact ⟨e2, by simpa using he2, hz2⟩
      · simp only [writeExcluded, hr, hw] at hz
        simp at hz
    · simp only [writeExcluded, hr] at hz
      simp at hz

theorem check_file_some (e : FsEntry) (v : Bool) (info : ImageInfo)
    (h : check_file e v = .ok (some info)) :
    info.entry = e ∧ e.format = some info.format ∧ FORMATS.contains info.format = true := by
  simp only [check_file] at h
  split at h
  · simp at h
  · split at h
    · rename_i fmt hfmt
      split at h
      · split at h
        · simp at h
        · simp only [Except.ok.injEq, Option.some.injEq] at h
          subst h
          exact ⟨rfl, hfmt, by assumption⟩
      · simp at h
    · simp at h

theorem check_dir_loop_eq (v : Bool) :
    ∀ paths i n x, check_dir_loop v paths = .ok (i, n, x) →
      i.map ImageInfo.entry = paths.filter (isClass v .img) ∧
      n = paths.filter (isClass v .nonImg) ∧
      x = paths.filter (isClass v .excl) ∧
      i.length + n.length + x.length = paths.length := by
  intro paths
  induction paths with
  | nil =>
    intro i n x h
    simp only [check_dir_loop, Except.ok.injEq, Prod.mk.injEq] at h
    obtain ⟨h1, h2, h3⟩ := h
    subst h1; subst h2; subst h3
    simp
  | cons e rest ih =>
    intro i n x h
    simp only [check_dir_loop] at h
    split at h
    · -- not a regular file: goes to non-images
      rename_i hf
      simp only [Bool.not_eq_eq_eq_not, Bool.not_true] at hf
      split at h
      · simp at h
      · rename_i ri rn rx heq
        simp only [Except.ok.injEq, Prod.mk.injEq] at h
        obtain ⟨h1, h2, h3⟩ := h
        subst h1; subst h2; subst h3
        obtain ⟨e1, e2, e3, e4⟩ := ih ri rn rx heq
        have hc : entryClass v e = some .nonImg := by simp [entryClass, hf]
        simp only [List.filter_cons, isClass, hc, List.length_cons]
        refine ⟨by simpa using e1, by simpa using e2, by simpa using e3, by omega⟩
    · -- a regular file
      rename_i hf
      simp at hf
      split at h
      · -- excluded file name
        rename_i hx
        simp at hx
        split at h
        · simp at h
        · rename_i ri rn rx heq
          simp only [Except.ok.injEq, Prod.mk.injEq] at h
          obtain ⟨h1, h2, h3⟩ := h
          subst h1; subst h2; subst h3
          obtain ⟨e1, e2, e3, e4⟩ := ih ri rn rx heq
          have hc : entryClass v e = some .excl := by simp [entryClass, hf, hx]
          simp only [List.filter_cons, isClass, hc, List.length_cons]
          refine ⟨by simpa using e1, by simpa using e2, by simpa using e3, by omega⟩
      · -- classified by check_file
        rename_i hx
        simp at hx
        split at h
        · simp at h
        · -- check_file returned some image
          rename_i info hcf
          split at h
          · simp at h
          · rename_i ri rn rx heq
            simp only [Except.ok.injEq, Prod.mk.injEq] at h
            obtain ⟨h1, h2, h3⟩ := h
            subst h1; subst h2; subst h3
            obtain ⟨e1, e2, e3, e4⟩ := ih ri rn rx heq
            have hc : entryClass v e = some .img := by simp [entryClass, hf, hx, hcf]
            simp only [List.filter_cons, isClass, hc, List.length_cons, List.map_cons]
            have hinfo : info.entry = e := (check_file_some e v info hcf).1
            refine ⟨by simpa [hinfo] using e1, by simpa using e2, by simpa using e3, by omega⟩
        · -- check_file returned none
          rename_i hcf
          split at h
          · simp at h
          · rename_i ri rn rx heq
            simp only [Except.ok.injEq, Prod.mk.injEq] at h
            obtain ⟨h1, h2, h3⟩ := h
            subst h1; subst h2; subst h3
            obtain ⟨e1, e2, e3, e4⟩ := ih ri rn rx heq
            have hc : entryClass v e = some .nonImg := by simp [entryClass, hf, hx, hcf]
            simp only [List.filter_cons, isClass, hc, List.length_cons]
            refine ⟨by simpa using e1, by simpa using e2, by simpa using e3, by omega⟩

theorem check_dir_ok (d : DirModel) (v : Bool) (i : List ImageInfo) (n x : List FsEntry)
    (h : check_dir d v = .ok (i, n, x)) :
    d.readDirOk = true ∧ check_dir_loop v (sorted_paths d) = .ok (i, n, x) := by
  simp only [check_dir, get_paths] at h
  by_cases hr : d.readDirOk
  · simp only [hr, Bool.not_true, Bool.false_eq_true, if_false] at h
    exact ⟨hr, h⟩
  · simp only [Bool.not_eq_true] at hr
    simp [hr] at h

theorem check_dir_mem (d : DirModel) (v : Bool) (i : List ImageInfo) (n x : List FsEntry)
    (h : check_dir d v = .ok (i, n, x)) :
    (∀ info ∈ i, info.entry ∈ d.entries) ∧ (∀ e ∈ n, e ∈ d.entries) ∧
      (∀ e ∈ x, e ∈ d.entries) := by
  obtain ⟨hr, hl⟩ := check_dir_ok d v i n x h
  obtain ⟨e1, e2, e3, _⟩ := check_dir_loop_eq v (sorted_paths d) i n x hl
  refine ⟨?_, ?_, ?_⟩
  · intro info hi
    have hm : info.entry ∈ List.map ImageInfo.entry i := List.mem_map_of_mem _ hi
    rw [e1] at hm
    have hm2 := List.mem_of_mem_filter hm
    rwa [sorted_paths, List.mem_insertionSort] at hm2
  · intro e he
    rw [e2] at he
    have hm2 := List.mem_of_mem_filter he
    rwa [sorted_paths, List.mem_insertionSort] at hm2
  · intro e he
    rw [e3] at he
    have hm2 := List.mem_of_mem_filter he
    rwa [sorted_paths, List.mem_insertionSort] at hm2

theorem scan_and_build_entries_err (d : DirModel) (cfg : Config) (env : Env) (msg : String)
    (hcd : check_dir d cfg.verify = .error msg) :
    (scan_and_build d cfg env).1.entries = [] := by
  simp [scan_and_build, hcd]

theorem scan_and_build_entries_shape (d : DirModel) (cfg : Config) (env : Env)
    (i : List ImageInfo) (n x : List FsEntry)
    (hcd : check_dir d cfg.verify = .ok (i, n, x)) :
    (scan_and_build d cfg env).1.entries = [] ∨
      (scan_and_build d cfg env).1.entries = (writeImgs cfg.no_rename i.length 0 i).1 ∨
      ((writeImgs cfg.no_rename i.length 0 i).2 = none ∧
        (scan_and_build d cfg env).1.entries =
          (writeImgs cfg.no_rename i.length 0 i).1 ++ (writeExcluded x).1) := by
  simp only [scan_and_build, hcd]
  split
  · simp
  · split
    · simp
    · split
      · exact Or.inr (Or.inl rfl)
      · rename_i heq1
        split
        · exact Or.inr (Or.inr ⟨heq1, rfl⟩)
        · split
          · exact Or.inr (Or.inr ⟨heq1, rfl⟩)
          · split
            · split
              · exact Or.inr (Or.inr ⟨heq1, rfl⟩)
              · exact Or.inr (Or.inr ⟨heq1, rfl⟩)
            · exact Or.inr (Or.inr ⟨heq1, rfl⟩)

theorem scan_and_build_prompted (d : DirModel) (cfg : Config) (env : Env) :
    (scan_and_build d cfg env).1.prompted = false := by
  simp only [scan_and_build]
  split
  · rfl
  · split
    · rfl
    · split
      · rfl
      · split
        · rfl
        · split
          · rfl
          · split
            · rfl
            · split
              · split
                · rfl
                · rfl
              · rfl

theorem scan_and_build_nonimgs (d : DirModel) (cfg : Config) (env : Env)
    (i : List ImageInfo) (n x : List FsEntry)
    (hcd : check_dir d cfg.verify = .ok (i, n, x)) (hn : n ≠ []) :
    scan_and_build d cfg env = ({ printed := n.map (·.path) }, .ok ()) := by
  have hne : n.isEmpty = false := by
    cases n with
    | nil => exact absurd rfl hn
    | cons a l => rfl
  simp [scan_and_build, hcd, hne]

theorem scan_and_build_success (d : DirModel) (cfg : Config) (env : Env)
    (i : List ImageInfo) (x : List FsEntry)
    (hcd : check_dir d cfg.verify = .ok (i, [], x))
    (hfi : ∀ img ∈ i, img.entry.fsReadOk = true ∧ img.entry.writeOk = true)
    (hfx : ∀ e ∈ x, e.fsReadOk = true ∧ e.writeOk = true)
    (hc : env.createOk = true) (hf : env.finishOk = true) :
    (scan_and_build d cfg env).1.entries =
      (writeImgs cfg.no_rename i.length 0 i).1 ++
        x.map (fun e => ZipEntry.mk (effName e) e.content .stored) ∧
    (scan_and_build d cfg env).1.finished = true := by
  have h1 := writeImgs_err_none cfg.no_rename i.length i hfi 0
  have h2 := writeExcluded_eq x hfx
  simp only [scan_and_build, hcd, List.isEmpty_nil, Bool.not_true, Bool.false_eq_true,
    if_false, hc, h1, h2, hf]
  split
  · split
    · constructor <;> rfl
    · constructor <;> rfl
  · constructor <;> rfl

theorem scan_and_build_deleted (d : DirModel) (cfg : Config) (env : Env)
    (h : (scan_and_build d cfg env).1.deleted = true) :
    cfg.delete = true ∧ env.createOk = true ∧ env.finishOk = true ∧
      env.removeOk = true ∧
      (scan_and_build d cfg env).1.archiveCreated = true ∧
      (scan_and_build d cfg env).1.finished = true ∧
      (scan_and_build d cfg env).2 = .ok () ∧
      ∃ i x, check_dir d cfg.verify = .ok (i, [], x) ∧
        (writeImgs cfg.no_rename i.length 0 i).2 = none ∧
        (writeExcluded x).2 = none := by
  cases hcd : check_dir d cfg.verify with
  | error msg => simp [scan_and_build, hcd] at h
  | ok t =>
    obtain ⟨i, n, x⟩ := t
    simp only [scan_and_build, hcd] at h ⊢
    split at h
    · simp at h
    · rename_i hne
      split at h
      · simp at h
      · rename_i hcr
        split at h
        · simp at h
        · rename_i heq1
          split at h
          · simp at h
          · rename_i heq2
            split at h
            · simp at h
            · rename_i hfin
              split at h
              · rename_i hdel
                split at h
                · simp at h
                · rename_i hrem
                  simp at hne hcr hfin hrem
                  have hn : n = [] := by
                    cases n with
                    | nil => rfl
                    | cons a l => simp at hne
                  subst hn
                  refine ⟨hdel, hcr, hfin, hrem, ?_, ?_, ?_, i, x, rfl, heq1, heq2⟩ <;>
                    simp [hcr, heq1, heq2, hfin, hdel, hrem]
              · simp at h

/-! ## Claim theorems -/

/-- C1: for every non-empty image list of length N built with
`no_rename = false`, the archive entry at 1-based position `k + 1` is named
`k + 1` zero-padded to width `max(2, digits of N)` followed by `.` and the
canonical extension of the image's detected format; the width is 2 for
N = 9, 2 for N = 10, and 3 for N = 100. -/
theorem claim_C1 (imgs : List ImageInfo) (_hne : imgs ≠ [])
    (hflags : ∀ img ∈ imgs, img.entry.fsReadOk = true ∧ img.entry.writeOk = true) :
    (∀ k, (writeImgs false imgs.length 0 imgs).1[k]? =
      imgs[k]?.map (fun img =>
        ZipEntry.mk
          (zeroPad (k + 1) (max (toString imgs.length).length 2) ++ "." ++
            extFirst img.format)
          img.entry.content .stored)) ∧
    max (toString (9 : Nat)).length 2 = 2 ∧
    max (toString (10 : Nat)).length 2 = 2 ∧
    max (toString (100 : Nat)).length 2 = 3 := by
  refine ⟨fun k => ?_, by decide, by decide, by decide⟩
  rw [writeImgs_getElem false imgs.length imgs hflags 0 k]
  cases himg : imgs[k]? with
  | none => simp
  | some img => simp [imgEntryName, Nat.zero_add]

/-- Witness for C1: a concrete one-image run produces the entry `01.png`
holding the image's bytes. -/
theorem claim_C1_witness :
    ([(⟨⟨"d/a.png", true, some "a.png", true, some .png, true, [1], true, true⟩,
        .png⟩ : ImageInfo)] ≠ [] ∧
      (writeImgs false 1 0
          [⟨⟨"d/a.png", true, some "a.png", true, some .png, true, [1], true, true⟩,
            .png⟩]).1[0]? =
        some (ZipEntry.mk "01.png" [1] .stored)) := by
  refine ⟨by decide, ?_⟩
  exact Eq.trans
    ((claim_C1
        [⟨⟨"d/a.png", true, some "a.png", true, some .png, true, [1], true, true⟩, .png⟩]
        (by decide) (by decide)).1 0)
    (by decide)

/-- C6: `check_file` returns an error exactly when the file cannot be
opened/read; an undetected format, an unsupported format, or a decode
failure under `verify = true` each classify as `none` (not an image),
never as an error. -/
theorem claim_C6 (e : FsEntry) (v : Bool) :
    ((∃ msg, check_file e v = .error msg) ↔ e.readable = false) ∧
    (e.readable = true → e.format = none → check_file e v = .ok none) ∧
    (∀ fmt, e.readable = true → e.format = some fmt → FORMATS.contains fmt = false →
      check_file e v = .ok none) ∧
    (e.readable = true → v = true → e.decodes = false → check_file e v = .ok none) := by
  refine ⟨⟨?_, ?_⟩, ?_, ?_, ?_⟩
  · rintro ⟨msg, h⟩
    by_cases hr : e.readable
    · exfalso
      simp only [check_file, hr, Bool.not_true, Bool.false_eq_true, if_false] at h
      split at h
      · split at h
        · split at h <;> simp at h
        · simp at h
      · simp at h
    · simpa using hr
  · intro hr
    refine ⟨"Failed to open " ++ e.path ++ " for reading", ?_⟩
    simp [check_file, hr]
  · intro hr hf
    simp [check_file, hr, hf]
  · intro fmt hr hf hc
    have hc2 : fmt ∉ FORMATS := by simpa using hc
    simp [check_file, hr, hf, hc2]
  · intro hr hv hd
    simp only [check_file, hr, Bool.not_true, Bool.false_eq_true, if_false]
    cases hf : e.format with
    | none => rfl
    | some fmt =>
      by_cases hc : FORMATS.contains fmt
      · simp [hc, hv, hd]
      · have hc2 : fmt ∉ FORMATS := by simpa using hc
        simp [hc2]

/-- Witness for C6: an unopenable file yields an error, and a readable but
undecodable PNG under `verify = true` classifies as `none`. -/
theorem claim_C6_witness :
    (∃ msg, check_file ⟨"f", true, some "f", false, none, false, [], true, true⟩ false =
      .error msg) ∧
    check_file ⟨"g", true, some "g", true, some .png, false, [2], true, true⟩ true =
      .ok none := by
  refine ⟨(claim_C6 ⟨"f", true, some "f", false, none, false, [], true, true⟩ false).1.mpr
    (by decide), ?_⟩
  exact (claim_C6 ⟨"g", true, some "g", true, some .png, false, [2], true, true⟩ true).2.2.2
    (by decide) (by decide) (by decide)

/-- C9: processing a list of directories yields one result per directory, the
result at each position is exactly that directory's `create_cbz` outcome
(so no failure aborts the rest), and every per-directory error message is
collected on the diagnostic stream. -/
theorem claim_C9 (cfg : Config) (jobs : List (DirModel × Env)) :
    (process_dirs cfg jobs).1.length = jobs.length ∧
    (∀ k : Nat, (process_dirs cfg jobs).1[k]? =
      jobs[k]?.map (fun (j : DirModel × Env) => create_cbz j.1 cfg j.2)) ∧
    (∀ (k : Nat) (j : DirModel × Env) (msg : String),
      jobs[k]? = some j → (create_cbz j.1 cfg j.2).2 = .error msg →
      msg ∈ (process_dirs cfg jobs).2) := by
  induction jobs with
  | nil =>
    refine ⟨rfl, fun k => by simp [process_dirs], fun k j msg h => by simp at h⟩
  | cons j rest ih =>
    obtain ⟨ih1, ih2, ih3⟩ := ih
    cases hr : (create_cbz j.1 cfg j.2).2 with
    | error msg0 =>
      refine ⟨by simp [process_dirs, hr, ih1], ?_, ?_⟩
      · intro k
        cases k with
        | zero => simp [process_dirs, hr]
        | succ k => simpa [process_dirs, hr] using ih2 k
      · intro k jj msg hjk hmsg
        cases k with
        | zero =>
          simp only [List.getElem?_cons_zero, Option.some.injEq] at hjk
          subst hjk
          rw [hr] at hmsg
          simp only [Except.error.injEq] at hmsg
          subst hmsg
          simp [process_dirs, hr]
        | succ k =>
          have hmem := ih3 k jj msg (by simpa using hjk) hmsg
          simp only [process_dirs, hr]
          exact List.mem_cons_of_mem _ hmem
    | ok u =>
      refine ⟨by simp [process_dirs, hr, ih1], ?_, ?_⟩
      · intro k
        cases k with
        | zero => simp [process_dirs, hr]
        | succ k => simpa [process_dirs, hr] using ih2 k
      · intro k jj msg hjk hmsg
        cases k with
        | zero =>
          simp only [List.getElem?_cons_zero, Option.some.injEq] at hjk
          subst hjk
          rw [hr] at hmsg
          simp at hmsg
        | succ k =>
          have hmem := ih3 k jj msg (by simpa using hjk) hmsg
          simpa [process_dirs, hr] using hmem

/-- Witness for C9: a failing directory (unreadable listing) followed by a
succeeding one still yields two results, and the error is collected. -/
theorem claim_C9_witness :
    (process_dirs ⟨false, false, false, true⟩
        [(⟨"bad", [], false⟩, ⟨false, "", true, true, true⟩),
          (⟨"good", [], true⟩, ⟨false, "", true, true, true⟩)]).1.length = 2 ∧
    "Failed to read directory bad" ∈
      (process_dirs ⟨false, false, false, true⟩
        [(⟨"bad", [], false⟩, ⟨false, "", true, true, true⟩),
          (⟨"good", [], true⟩, ⟨false, "", true, true, true⟩)]).2 := by
  refine ⟨(claim_C9 ⟨false, false, false, true⟩ _).1, ?_⟩
  exact (claim_C9 ⟨false, false, false, true⟩ _).2.2 0
    (⟨"bad", [], false⟩, ⟨false, "", true, true, true⟩)
    "Failed to read directory bad" (by decide) (by decide)

/-- C10: with `no_rename = true`, an image (or excluded file) whose file
name is absent or not valid UTF-8 is stored under the empty entry name
rather than raising an error. -/
theorem claim_C10 (total idx : Nat) (img : ImageInfo) (rest : List ImageInfo)
    (e : FsEntry) (xs : List FsEntry)
    (h1 : img.entry.fileName = none) (h2 : img.entry.fsReadOk = true)
    (h3 : img.entry.writeOk = true) (h4 : e.fileName = none)
    (h5 : e.fsReadOk = true) (h6 : e.writeOk = true) :
    (writeImgs true total idx (img :: rest)).1[0]? =
      some (ZipEntry.mk "" img.entry.content .stored) ∧
    (writeExcluded (e :: xs)).1[0]? = some (ZipEntry.mk "" e.content .stored) := by
  constructor
  · simp [writeImgs, h2, h3, imgEntryName, effName, h1]
  · simp [writeExcluded, h5, h6, effName, h4]

/-- Witness for C10: a concrete image and excluded file without a UTF-8
name are both stored under the empty name. -/
theorem claim_C10_witness :
    (writeImgs true 1 0
        [⟨⟨"d/x", true, none, true, some .gif, true, [3], true, true⟩, .gif⟩]).1[0]? =
      some (ZipEntry.mk "" [3] .stored) ∧
    (writeExcluded [⟨"d/y", true, none, true, none, true, [4], true, true⟩]).1[0]? =
      some (ZipEntry.mk "" [4] .stored) :=
  claim_C10 1 0 ⟨⟨"d/x", true, none, true, some .gif, true, [3], true, true⟩, .gif⟩ []
    ⟨"d/y", true, none, true, none, true, [4], true, true⟩ []
    rfl rfl rfl rfl rfl rfl

/-- C4: the scanner's result partitions the sorted listing: images,
non-images and excluded are exactly the classification-filtered sublists of
the sorted listing (so every path lands in exactly one sequence, in listing
order), their lengths sum to the listing's length, and the sorted listing
is a permutation of the raw directory entries. -/
theorem claim_C4 (d : DirModel) (v : Bool) (i : List ImageInfo) (n x : List FsEntry)
    (h : check_dir d v = .ok (i, n, x)) :
    i.map ImageInfo.entry = (sorted_paths d).filter (isClass v .img) ∧
    n = (sorted_paths d).filter (isClass v .nonImg) ∧
    x = (sorted_paths d).filter (isClass v .excl) ∧
    i.length + n.length + x.length = (sorted_paths d).length ∧
    (sorted_paths d).Perm d.entries := by
  obtain ⟨hr, hl⟩ := check_dir_ok d v i n x h
  obtain ⟨e1, e2, e3, e4⟩ := check_dir_loop_eq v (sorted_paths d) i n x hl
  exact ⟨e1, e2, e3, e4, List.perm_insertionSort _ _⟩

/-- Witness for C4: a concrete directory with one image, one subdirectory
and one excluded file partitions as expected. -/
theorem claim_C4_witness :
    [(⟨"d/ComicInfo.xml", true, some "ComicInfo.xml", true, none, true, [7], true,
        true⟩ : FsEntry)] =
      (sorted_paths ⟨"d",
        [⟨"d/a.jpg", true, some "a.jpg", true, some .jpeg, true, [1], true, true⟩,
          ⟨"d/Sub", false, some "Sub", true, none, true, [], true, true⟩,
          ⟨"d/ComicInfo.xml", true, some "ComicInfo.xml", true, none, true, [7], true,
            true⟩], true⟩).filter (isClass false .excl) ∧
    1 + 1 + 1 =
      (sorted_paths ⟨"d",
        [⟨"d/a.jpg", true, some "a.jpg", true, some .jpeg, true, [1], true, true⟩,
          ⟨"d/Sub", false, some "Sub", true, none, true, [], true, true⟩,
          ⟨"d/ComicInfo.xml", true, some "ComicInfo.xml", true, none, true, [7], true,
            true⟩], true⟩).length := by
  have h := claim_C4
    ⟨"d", [⟨"d/a.jpg", true, some "a.jpg", true, some .jpeg, true, [1], true, true⟩,
      ⟨"d/Sub", false, some "Sub", true, none, true, [], true, true⟩,
      ⟨"d/ComicInfo.xml", true, some "ComicInfo.xml", true, none, true, [7], true, true⟩],
      true⟩
    false
    [⟨⟨"d/a.jpg", true, some "a.jpg", true, some .jpeg, true, [1], true, true⟩, .jpeg⟩]
    [⟨"d/Sub", false, some "Sub", true, none, true, [], true, true⟩]
    [⟨"d/ComicInfo.xml", true, some "ComicInfo.xml", true, none, true, [7], true, true⟩]
    (by decide)
  exact ⟨h.2.2.1, h.2.2.2.1⟩

/-- C2: when the scan reaches a non-empty non-image list, `create_cbz`
returns success, creates no archive file, writes no entries, deletes
nothing, and prints every non-image path. -/
theorem claim_C2 (d : DirModel) (cfg : Config) (env : Env)
    (i : List ImageInfo) (n x : List FsEntry)
    (hreach : cfg.overwrite = true ∨ env.zipExists = false ∨ promptYes env.answer = true)
    (hcd : check_dir d cfg.verify = .ok (i, n, x)) (hn : n ≠ []) :
    (create_cbz d cfg env).2 = .ok () ∧
    (create_cbz d cfg env).1.archiveCreated = false ∧
    (create_cbz d cfg env).1.entries = [] ∧
    (create_cbz d cfg env).1.deleted = false ∧
    (create_cbz d cfg env).1.printed = n.map (·.path) := by
  have hs := scan_and_build_nonimgs d cfg env i n x hcd hn
  by_cases ho : cfg.overwrite
  · simp [create_cbz, ho, hs]
  · by_cases hz : env.zipExists
    · have hp : promptYes env.answer = true := by
        rcases hreach with h | h | h
        · exact absurd h ho
        · rw [h] at hz; simp at hz
        · exact h
      simp at ho
      simp [create_cbz, ho, hz, hp, hs]
    · simp at ho hz
      simp [create_cbz, ho, hz, hs]

/-- Witness for C2: a directory containing a single text file is skipped
with success and its path printed. -/
theorem claim_C2_witness :
    (create_cbz ⟨"t", [⟨"t/f.txt", true, some "f.txt", true, none, true, [5], true, true⟩],
        true⟩ ⟨false, false, false, true⟩ ⟨false, "", true, true, true⟩).2 = .ok () ∧
    (create_cbz ⟨"t", [⟨"t/f.txt", true, some "f.txt", true, none, true, [5], true, true⟩],
        true⟩ ⟨false, false, false, true⟩ ⟨false, "", true, true, true⟩).1.printed =
      ["t/f.txt"] := by
  have h := claim_C2
    ⟨"t", [⟨"t/f.txt", true, some "f.txt", true, none, true, [5], true, true⟩], true⟩
    ⟨false, false, false, true⟩ ⟨false, "", true, true, true⟩
    [] [⟨"t/f.txt", true, some "f.txt", true, none, true, [5], true, true⟩] []
    (Or.inl rfl) (by decide) (by decide)
  exact ⟨h.1, Eq.trans h.2.2.2.2 (by decide)⟩

/-- C3: every entry written into the archive, image or excluded, uses the
Stored (no compression) method and is byte-for-byte the content of its own
source file: the archive entry at position k is the k-th scanned image's
bytes under its computed name, or (past the images) the (k - #images)-th
excluded file's bytes under its original name. -/
theorem claim_C3 (d : DirModel) (cfg : Config) (env : Env) (k : Nat) (z : ZipEntry)
    (hz : (create_cbz d cfg env).1.entries[k]? = some z) :
    z.method = .stored ∧
    ∃ i n x, check_dir d cfg.verify = .ok (i, n, x) ∧
      ((∃ img, i[k]? = some img ∧
          z = ZipEntry.mk (imgEntryName cfg.no_rename i.length k img)
            img.entry.content .stored) ∨
        (i.length ≤ k ∧ ∃ e, x[k - i.length]? = some e ∧
          z = ZipEntry.mk (effName e) e.content .stored)) := by
  have hz2 : (scan_and_build d cfg env).1.entries[k]? = some z := by
    simp only [create_cbz] at hz
    split at hz
    · split at hz
      · simp at hz
      · exact hz
    · exact hz
  cases hcd : check_dir d cfg.verify with
  | error msg =>
    rw [scan_and_build_entries_err d cfg env msg hcd] at hz2
    simp at hz2
  | ok t =>
    obtain ⟨i, n, x⟩ := t
    rcases scan_and_build_entries_shape d cfg env i n x hcd with he | he | ⟨hnone, he⟩
    · rw [he] at hz2; simp at hz2
    · rw [he] at hz2
      obtain ⟨img, hik, hzeq⟩ := writeImgs_prefix cfg.no_rename i.length i 0 k z hz2
      exact ⟨by rw [hzeq], i, n, x, rfl, Or.inl ⟨img, hik, by simpa using hzeq⟩⟩
    · rw [he] at hz2
      have hlen := writeImgs_none_length cfg.no_rename i.length i 0 hnone
      by_cases hk : k < (writeImgs cfg.no_rename i.length 0 i).1.length
      · rw [List.getElem?_append_left hk] at hz2
        obtain ⟨img, hik, hzeq⟩ := writeImgs_prefix cfg.no_rename i.length i 0 k z hz2
        exact ⟨by rw [hzeq], i, n, x, rfl, Or.inl ⟨img, hik, by simpa using hzeq⟩⟩
      · push_neg at hk
        rw [List.getElem?_append_right hk, hlen] at hz2
        rw [hlen] at hk
        obtain ⟨e, hek, hzeq⟩ := writeExcluded_prefix x (k - i.length) z hz2
        exact ⟨by rw [hzeq], i, n, x, rfl, Or.inr ⟨hk, e, hek, hzeq⟩⟩

/-- Witness for C3: in a concrete run with one PNG and a `ComicInfo.xml`,
the archive entry at position 1 is stored and is exactly the excluded
file's own bytes under its original name. -/
theorem claim_C3_witness :
    (ZipEntry.mk "ComicInfo.xml" [9] .stored).method = .stored ∧
    ∃ i n x,
      check_dir (⟨"d",
        [⟨"d/a.png", true, some "a.png", true, some .png, true, [1], true, true⟩,
          ⟨"d/ComicInfo.xml", true, some "ComicInfo.xml", true, none, true, [9], true,
            true⟩], true⟩ : DirModel) false = .ok (i, n, x) ∧
      ((∃ img, i[1]? = some img ∧
          ZipEntry.mk "ComicInfo.xml" [9] .stored =
            ZipEntry.mk (imgEntryName false i.length 1 img) img.entry.content .stored) ∨
        (i.length ≤ 1 ∧ ∃ e, x[1 - i.length]? = some e ∧
          ZipEntry.mk "ComicInfo.xml" [9] .stored =
            ZipEntry.mk (effName e) e.content .stored)) :=
  claim_C3
    ⟨"d", [⟨"d/a.png", true, some "a.png", true, some .png, true, [1], true, true⟩,
      ⟨"d/ComicInfo.xml", true, some "ComicInfo.xml", true, none, true, [9], true, true⟩],
      true⟩
    ⟨false, false, false, true⟩ ⟨false, "", true, true, true⟩
    1 (ZipEntry.mk "ComicInfo.xml" [9] .stored) (by decide)

/-- C5: a regular file whose effective name is `ComicInfo.xml` is classified
excluded whatever its content looks like to the image classifier, and a
successful build writes the excluded files, under their original names,
after all image entries. -/
theorem claim_C5 :
    (∀ (v : Bool) (e : FsEntry), e.isFile = true → effName e = "ComicInfo.xml" →
      entryClass v e = some .excl) ∧
    (∀ (d : DirModel) (cfg : Config) (env : Env) (i : List ImageInfo) (x : List FsEntry),
      check_dir d cfg.verify = .ok (i, [], x) →
      (∀ img ∈ i, img.entry.fsReadOk = true ∧ img.entry.writeOk = true) →
      (∀ e ∈ x, e.fsReadOk = true ∧ e.writeOk = true) →
      env.createOk = true → env.finishOk = true →
      (scan_and_build d cfg env).1.entries =
        (writeImgs cfg.no_rename i.length 0 i).1 ++
          x.map (fun e => ZipEntry.mk (effName e) e.content .stored)) := by
  constructor
  · intro v e hf hn
    simp [entryClass, hf, hn, EXCLUDED_FILES]
  · intro d cfg env i x hcd hfi hfx hc hfin
    exact (scan_and_build_success d cfg env i x hcd hfi hfx hc hfin).1

/-- Witness for C5: an unreadable, undecodable `ComicInfo.xml` is still
classified excluded, and a concrete build places it after the image
entries under its original name. -/
theorem claim_C5_witness :
    entryClass true ⟨"d/ComicInfo.xml", true, some "ComicInfo.xml", false, none, false,
      [9], true, true⟩ = some .excl ∧
    (scan_and_build ⟨"d",
        [⟨"d/a.png", true, some "a.png", true, some .png, true, [1], true, true⟩,
          ⟨"d/ComicInfo.xml", true, some "ComicInfo.xml", true, none, true, [9], true,
            true⟩], true⟩
      ⟨false, false, false, true⟩ ⟨false, "", true, true, true⟩).1.entries =
      [ZipEntry.mk "01.png" [1] .stored, ZipEntry.mk "ComicInfo.xml" [9] .stored] := by
  constructor
  · exact claim_C5.1 true
      ⟨"d/ComicInfo.xml", true, some "ComicInfo.xml", false, none, false, [9], true, true⟩
      rfl rfl
  · have h := claim_C5.2
      ⟨"d", [⟨"d/a.png", true, some "a.png", true, some .png, true, [1], true, true⟩,
        ⟨"d/ComicInfo.xml", true, some "ComicInfo.xml", true, none, true, [9], true,
          true⟩], true⟩
      ⟨false, false, false, true⟩ ⟨false, "", true, true, true⟩
      [⟨⟨"d/a.png", true, some "a.png", true, some .png, true, [1], true, true⟩, .png⟩]
      [⟨"d/ComicInfo.xml", true, some "ComicInfo.xml", true, none, true, [9], true, true⟩]
      (by decide) (by decide) (by decide) rfl rfl
    exact Eq.trans h (by decide)

/-- C7: with the output present and `overwrite` unset, a non-affirmative
trimmed lowercased answer skips the directory with success and no state
change; an affirmative answer proceeds to scan and build; with `overwrite`
set or no existing output, processing proceeds without prompting. -/
theorem claim_C7 (d : DirModel) (cfg : Config) (env : Env) :
    (cfg.overwrite = false → env.zipExists = true →
      lowerTrim env.answer ≠ "y" → lowerTrim env.answer ≠ "yes" →
      create_cbz d cfg env = ({ prompted := true }, .ok ())) ∧
    (cfg.overwrite = false → env.zipExists = true →
      (lowerTrim env.answer = "y" ∨ lowerTrim env.answer = "yes") →
      create_cbz d cfg env =
        ({ (scan_and_build d cfg env).1 with prompted := true },
          (scan_and_build d cfg env).2)) ∧
    ((cfg.overwrite = true ∨ env.zipExists = false) →
      create_cbz d cfg env = scan_and_build d cfg env ∧
      (create_cbz d cfg env).1.prompted = false) := by
  refine ⟨?_, ?_, ?_⟩
  · intro ho hz h1 h2
    have hp : promptYes env.answer = false := by
      simp [promptYes, h1, h2]
    simp [create_cbz, ho, hz, hp]
  · intro ho hz h
    have hp : promptYes env.answer = true := by
      rcases h with h | h <;> simp [promptYes, h]
    simp [create_cbz, ho, hz, hp]
  · intro h
    have hcond : (!cfg.overwrite && env.zipExists) = false := by
      rcases h with h | h <;> simp [h]
    have hred : create_cbz d cfg env = scan_and_build d cfg env := by
      simp [create_cbz, hcond]
    exact ⟨hred, by rw [hred]; exact scan_and_build_prompted d cfg env⟩

/-- Witness for C7: answering `" N "` skips with success; `overwrite = true`
proceeds without prompting. -/
theorem claim_C7_witness :
    create_cbz ⟨"d", [], true⟩ ⟨false, false, false, false⟩
        ⟨true, " N ", true, true, true⟩ = ({ prompted := true }, .ok ()) ∧
    (create_cbz ⟨"d", [], true⟩ ⟨false, false, false, true⟩
        ⟨true, "", true, true, true⟩).1.prompted = false := by
  constructor
  · exact (claim_C7 ⟨"d", [], true⟩ ⟨false, false, false, false⟩
      ⟨true, " N ", true, true, true⟩).1 rfl rfl (by decide) (by decide)
  · exact ((claim_C7 ⟨"d", [], true⟩ ⟨false, false, false, true⟩
      ⟨true, "", true, true, true⟩).2.2 (Or.inl rfl)).2

/-- C8: the source directory is deleted only when `delete` is set and every
archive step succeeded — the scan found no non-images, the archive file was
created, every image and excluded entry was written, and finalize
succeeded — and then the run reports success; any build failure leaves the
directory in place. -/
theorem claim_C8 (d : DirModel) (cfg : Config) (env : Env)
    (h : (create_cbz d cfg env).1.deleted = true) :
    cfg.delete = true ∧ env.createOk = true ∧ env.finishOk = true ∧
      env.removeOk = true ∧
      (create_cbz d cfg env).1.archiveCreated = true ∧
      (create_cbz d cfg env).1.finished = true ∧
      (create_cbz d cfg env).2 = .ok () ∧
      ∃ i x, check_dir d cfg.verify = .ok (i, [], x) ∧
        (writeImgs cfg.no_rename i.length 0 i).2 = none ∧
        (writeExcluded x).2 = none := by
  by_cases hc : (!cfg.overwrite && env.zipExists) = true
  · by_cases hp : promptYes env.answer = true
    · have hred : create_cbz d cfg env =
          ({ (scan_and_build d cfg env).1 with prompted := true },
            (scan_and_build d cfg env).2) := by
        simp [create_cbz, hc, hp]
      rw [hred] at h ⊢
      exact scan_and_build_deleted d cfg env h
    · have hred : create_cbz d cfg env = ({ prompted := true }, .ok ()) := by
        simp at hp
        simp [create_cbz, hc, hp]
      rw [hred] at h
      simp at h
  · have hcond : (!cfg.overwrite && env.zipExists) = false := Bool.eq_false_iff.mpr hc
    have hred : create_cbz d cfg env = scan_and_build d cfg env := by
      simp [create_cbz, hcond]
    rw [hred] at h ⊢
    exact scan_and_build_deleted d cfg env h

/-- Witness for C8: a concrete full-success run with `delete = true` removes
the directory and reports success. -/
theorem claim_C8_witness :
    (create_cbz ⟨"d", [⟨"d/a.png", true, some "a.png", true, some .png, true, [1], true,
        true⟩], true⟩ ⟨false, true, false, true⟩ ⟨false, "", true, true, true⟩).2 =
      .ok () ∧
    (create_cbz ⟨"d", [⟨"d/a.png", true, some "a.png", true, some .png, true, [1], true,
        true⟩], true⟩ ⟨false, true, false, true⟩
        ⟨false, "", true, true, true⟩).1.finished = true := by
  have h := claim_C8
    ⟨"d", [⟨"d/a.png", true, some "a.png", true, some .png, true, [1], true, true⟩], true⟩
    ⟨false, true, false, true⟩ ⟨false, "", true, true, true⟩ (by decide)
  exact ⟨h.2.2.2.2.2.2.1, h.2.2.2.2.2.1⟩

end Makecbz
